import Mathlib

/-!
A shallow embedding of the RiverSwim environment
(src/riverswim/riverswim.py) together with proofs about its transition
kernel, reward rule, reset/step lifecycle and randomness handling.

Machine reals (numpy float32) are modelled as exact rationals; the
pseudo-random generator is modelled as a stream of uniform draws in
[0,1), and the external seeding function (gymnasium.utils.seeding
.np_random) is modelled by two parameters: a function from integer
seeds to deterministic streams, and a fresh entropy stream used when
the seed is omitted.
-/

namespace RiverSwim

/-- Construction-time configuration of the environment: the keyword
arguments of RiverSwimEnv.__init__ (the field commom_reward keeps the
source spelling). -/
structure Config where
  n_states : ℕ
  max_reward : ℚ
  intermediate_reward : ℚ
  commom_reward : ℚ
  p_right : ℚ
  p_left : ℚ
deriving DecidableEq

/-- The derived probability of staying put, self.p_stay = 1 - p_left - p_right. -/
def Config.p_stay (cfg : Config) : ℚ := 1 - cfg.p_left - cfg.p_right

/-- The default constructor arguments of RiverSwimEnv.__init__. -/
def defaultConfig : Config :=
  { n_states := 6
  , max_reward := 10000
  , intermediate_reward := 5
  , commom_reward := 0
  , p_right := 3/10
  , p_left := 1/10 }

/-- A transition table indexed state, action, next state. -/
abbrev Mat := ℕ → ℕ → ℕ → ℚ

/-- The all-zero table np.zeros(shape=(n_states, n_actions, n_states)). -/
def zeroMat : Mat := fun _ _ _ => 0

/-- Point update of a transition table: a single numpy assignment
transition_matrix[s, a, t] = v. -/
def mupdate (M : Mat) (s a t : ℕ) (v : ℚ) : Mat :=
  fun s1 a1 t1 => if s1 = s ∧ a1 = a ∧ t1 = t then v else M s1 a1 t1

/-- First conditional of the loop body of _get_transition: the
assignments guarded by if i > 0 / else. -/
def bodyA (cfg : Config) (i : ℕ) (M : Mat) : Mat :=
  if 0 < i then
    mupdate (mupdate (mupdate M i 0 (i - 1) 1) i 1 (i - 1) cfg.p_left) i 1 i cfg.p_stay
  else
    mupdate (mupdate M i 0 i 1) i 1 i (cfg.p_stay + cfg.p_left)

/-- Second conditional of the loop body of _get_transition: the
assignments guarded by if i < n_states - 1 / else. -/
def bodyB (cfg : Config) (i : ℕ) (M : Mat) : Mat :=
  if i < cfg.n_states - 1 then
    mupdate M i 1 (i + 1) cfg.p_right
  else
    mupdate (mupdate M i 1 i cfg.p_right) i 1 (i - 1) (1 - cfg.p_right)

/-- One full iteration of the for-loop of _get_transition. -/
def transitionBody (cfg : Config) (i : ℕ) (M : Mat) : Mat :=
  bodyB cfg i (bodyA cfg i M)

/-- The transition kernel built by RiverSwimEnv._get_transition: start
from the zero table and run the loop body for i = 0, ..., n_states-1. -/
def _get_transition (cfg : Config) : Mat :=
  (List.range cfg.n_states).foldl (fun M i => transitionBody cfg i M) zeroMat

/-- Cumulative sum of the first m probabilities of a row. -/
def cumsum (p : ℕ → ℚ) (m : ℕ) : ℚ := ∑ j in Finset.range m, p j

/-- Linear scan underlying categorical sampling: starting at index k
with the given remaining fuel, return the first index j with
u < cumsum p (j+1), or the last scanned index when fuel runs out. -/
def searchsorted (p : ℕ → ℚ) (u : ℚ) : ℕ → ℕ → ℕ
  | 0, k => k
  | fuel + 1, k => if u < cumsum p (k + 1) then k else searchsorted p u fuel (k + 1)

/-- Categorical sampling np_random.choice(n, p=probabilities) by
inverse transform on a uniform draw u in [0,1): the first index whose
cumulative probability exceeds u, clipped to n - 1. -/
def choice (n : ℕ) (p : ℕ → ℚ) (u : ℚ) : ℕ := searchsorted p u (n - 1) 0

/-- The tuple returned by step. -/
structure StepOut where
  next_state : ℕ
  reward : ℚ
  terminated : Bool
  truncated : Bool
  info : List (String × ℚ)
deriving DecidableEq

/-- The mutable environment object: configuration, the cached
transition table, the current state, and the owned random source
(modelled as a stream of uniform draws plus a read position). -/
structure RiverSwimEnv where
  cfg : Config
  current_state : ℕ
  transition : Mat
  rng : ℕ → ℚ
  rng_pos : ℕ

/-- RiverSwimEnv.__init__: store the configuration, draw the initial
state from {0, 1} with equal probability, and cache the transition
kernel. -/
def RiverSwimEnv.init (cfg : Config) (rng0 : ℕ → ℚ) : RiverSwimEnv :=
  { cfg := cfg
  , current_state := choice 2 (fun _ => (1 : ℚ)/2) (rng0 0)
  , transition := _get_transition cfg
  , rng := rng0
  , rng_pos := 1 }

/-- The reward computation of step (lines 129-134 of the source). -/
def stepReward (cfg : Config) (current_state next_state : ℕ) (action : ℕ) : ℚ :=
  if current_state = next_state then
    if next_state = 0 ∧ action = 0 then cfg.intermediate_reward
    else if next_state = cfg.n_states - 1 ∧ action = 1 then cfg.max_reward
    else cfg.commom_reward
  else cfg.commom_reward

/-- RiverSwimEnv.step: reject actions outside {0, 1} (returning the
environment unchanged, as a raised exception leaves the object), else
sample the next state from the cached kernel row, compute the reward,
advance the current state and return
(next_state, reward, False, False, empty info). -/
def step (env : RiverSwimEnv) (action : ℤ) : Except String StepOut × RiverSwimEnv :=
  if ¬ (action = 0 ∨ action = 1) then
    (Except.error "Invalid action. Must be 0 or 1.", env)
  else
    let probabilities : ℕ → ℚ := fun t => env.transition env.current_state action.toNat t
    let next_state : ℕ := choice env.cfg.n_states probabilities (env.rng env.rng_pos)
    let reward : ℚ := stepReward env.cfg env.current_state next_state action.toNat
    (Except.ok
      { next_state := next_state
      , reward := reward
      , terminated := false
      , truncated := false
      , info := [] },
     { env with current_state := next_state, rng_pos := env.rng_pos + 1 })

/-- RiverSwimEnv.reset: replace the random source by the one returned
by the external seeding function (modelled by G for an integer seed and
by the entropy stream fresh when the seed is omitted, matching
gymnasium seeding.np_random which builds a new generator in both
cases), set the current state to 0 and return (0, empty info). -/
def reset (G : ℕ → ℕ → ℚ) (fresh : ℕ → ℚ) (env : RiverSwimEnv) (seed : Option ℕ) :
    (ℕ × List (String × ℚ)) × RiverSwimEnv :=
  let rng : ℕ → ℚ := match seed with | some s => G s | none => fresh
  let env1 : RiverSwimEnv := { env with rng := rng, rng_pos := 0, current_state := 0 }
  ((env1.current_state, []), env1)

/-- Run a finite sequence of step calls, collecting every output. -/
def runSteps (env : RiverSwimEnv) (actions : List ℤ) :
    List (Except String StepOut) × RiverSwimEnv :=
  match actions with
  | [] => ([], env)
  | a :: rest =>
    let r := step env a
    let rest1 := runSteps r.2 rest
    (r.1 :: rest1.1, rest1.2)

/-- The piecewise transition-kernel definition of spec section 4.1,
written from the spec words for comparison with _get_transition. -/
def kernelSpec (cfg : Config) (s a t : ℕ) : ℚ :=
  if a = 0 then
    if 0 < s then (if t = s - 1 then 1 else 0)
    else (if t = 0 then 1 else 0)
  else if a = 1 then
    if s = 0 then
      if t = 0 then cfg.p_stay + cfg.p_left
      else if t = 1 then cfg.p_right
      else 0
    else if s = cfg.n_states - 1 then
      if t = s then cfg.p_right
      else if t = s - 1 then 1 - cfg.p_right
      else 0
    else
      if t = s - 1 then cfg.p_left
      else if t = s then cfg.p_stay
      else if t = s + 1 then cfg.p_right
      else 0
  else 0

/-- The reward rule as stated in the spec (section 4.2), written from
the spec words for comparison with the reward computed by step. -/
def claimReward (cfg : Config) (s a ns : ℕ) : ℚ :=
  if ns ≠ s then cfg.commom_reward
  else if s = 0 ∧ a = 0 then cfg.intermediate_reward
  else if s = cfg.n_states - 1 ∧ a = 1 then cfg.max_reward
  else cfg.commom_reward

/-- The two row-sum assertions executed at the end of _get_transition. -/
def rowSumsOk (cfg : Config) : Prop :=
  ∀ s, s < cfg.n_states →
    cumsum (fun t => _get_transition cfg s 0 t) cfg.n_states = 1 ∧
    cumsum (fun t => _get_transition cfg s 1 t) cfg.n_states = 1

/-- A concrete environment with the default configuration, current
state 0 and a constant stream of zero draws. -/
def env₀ : RiverSwimEnv :=
  { cfg := defaultConfig
  , current_state := 0
  , transition := _get_transition defaultConfig
  , rng := fun _ => 0
  , rng_pos := 0 }

/-- A loop iteration for row i leaves every other row unchanged. -/
lemma transitionBody_ne (cfg : Config) {s i : ℕ} (h : s ≠ i) (M : Mat) (a t : ℕ) :
    transitionBody cfg i M s a t = M s a t := by
  simp only [transitionBody, bodyB, bodyA]
  split_ifs <;> simp [mupdate, h]

/-- A loop iteration reads its input table only at the entry it is
evaluated at. -/
lemma transitionBody_point (cfg : Config) (i : ℕ) (M M1 : Mat) (s a t : ℕ)
    (h : M s a t = M1 s a t) :
    transitionBody cfg i M s a t = transitionBody cfg i M1 s a t := by
  simp only [transitionBody, bodyB, bodyA]
  split_ifs <;> (simp only [mupdate]; split_ifs <;> first | rfl | exact h)

/-- Characterization of the kernel-building fold: after processing rows
0, ..., m-1, each processed row holds the value the loop body writes
over a zero table, and every other row is still zero. -/
lemma foldl_transition_char (cfg : Config) :
    ∀ (m s a t : ℕ),
      ((List.range m).foldl (fun M i => transitionBody cfg i M) zeroMat) s a t
        = if s < m then transitionBody cfg s zeroMat s a t else 0 := by
  intro m
  induction m with
  | zero => intro s a t; simp [zeroMat]
  | succ m ih =>
    intro s a t
    rw [List.range_succ, List.foldl_append, List.foldl_cons, List.foldl_nil]
    rcases Nat.lt_trichotomy s m with h | h | h
    · rw [transitionBody_ne cfg (by omega), ih]
      simp [h, Nat.lt_succ_of_lt h]
    · subst h
      rw [transitionBody_point cfg s _ zeroMat s a t (by rw [ih]; simp [zeroMat])]
      simp
    · rw [transitionBody_ne cfg (by omega), ih]
      have h1 : ¬ s < m := by omega
      have h2 : ¬ s < m + 1 := by omega
      simp [h1, h2]

set_option maxHeartbeats 1000000 in
/-- The value the loop body writes into its own row over a zero table
is exactly the piecewise kernel of the spec. -/
lemma transitionBody_zero_eq_kernelSpec (cfg : Config) (hn : 2 ≤ cfg.n_states)
    (s a t : ℕ) (hs : s < cfg.n_states) (ha : a < 2) :
    transitionBody cfg s zeroMat s a t = kernelSpec cfg s a t := by
  have ha01 : a = 0 ∨ a = 1 := by omega
  rcases ha01 with rfl | rfl <;>
    (simp only [transitionBody, bodyB, bodyA, mupdate, zeroMat, kernelSpec, ite_apply]
     simp only [eq_self_iff_true, true_and, Nat.one_ne_zero, false_and, if_false,
       if_true, ite_false, ite_true, Nat.zero_ne_one]
     split_ifs <;> first | rfl | omega)

/-- Entries of the built kernel inside the table coincide with the
piecewise kernel of the spec. -/
lemma get_transition_eq_kernelSpec (cfg : Config) (hn : 2 ≤ cfg.n_states)
    (s a t : ℕ) (hs : s < cfg.n_states) (ha : a < 2) :
    _get_transition cfg s a t = kernelSpec cfg s a t := by
  rw [_get_transition, foldl_transition_char, if_pos hs,
    transitionBody_zero_eq_kernelSpec cfg hn s a t hs ha]

/-- Summing a one-point row over the whole range picks up its value. -/
lemma sum_ite_single (n t : ℕ) (v : ℚ) (h : t < n) :
    ∑ x in Finset.range n, (if x = t then v else 0) = v := by
  rw [Finset.sum_ite_eq' (Finset.range n) t (fun _ => v)]
  simp [h]

/-- Summing a two-point row over the whole range adds its two values. -/
lemma sum_ite_double (n t1 t2 : ℕ) (v1 v2 : ℚ) (h1 : t1 < n) (h2 : t2 < n)
    (hne : t1 ≠ t2) :
    ∑ x in Finset.range n, (if x = t1 then v1 else if x = t2 then v2 else 0)
      = v1 + v2 := by
  have key : ∀ x : ℕ, (if x = t1 then v1 else if x = t2 then v2 else 0)
      = (if x = t1 then v1 else 0) + (if x = t2 then v2 else 0) := by
    intro x
    by_cases e1 : x = t1 <;> by_cases e2 : x = t2 <;> simp_all
  rw [Finset.sum_congr rfl (fun x _ => key x), Finset.sum_add_distrib,
    sum_ite_single n t1 v1 h1, sum_ite_single n t2 v2 h2]

/-- Summing a three-point row over the whole range adds its values. -/
lemma sum_ite_triple (n t1 t2 t3 : ℕ) (v1 v2 v3 : ℚ) (h1 : t1 < n) (h2 : t2 < n)
    (h3 : t3 < n) (h12 : t1 ≠ t2) (h13 : t1 ≠ t3) (h23 : t2 ≠ t3) :
    ∑ x in Finset.range n,
        (if x = t1 then v1 else if x = t2 then v2 else if x = t3 then v3 else 0)
      = v1 + v2 + v3 := by
  have key : ∀ x : ℕ,
      (if x = t1 then v1 else if x = t2 then v2 else if x = t3 then v3 else 0)
        = (if x = t1 then v1 else 0)
          + ((if x = t2 then v2 else 0) + (if x = t3 then v3 else 0)) := by
    intro x
    by_cases e1 : x = t1 <;> by_cases e2 : x = t2 <;> by_cases e3 : x = t3 <;> simp_all
  rw [Finset.sum_congr rfl (fun x _ => key x), Finset.sum_add_distrib,
    Finset.sum_add_distrib, sum_ite_single n t1 v1 h1, sum_ite_single n t2 v2 h2,
    sum_ite_single n t3 v3 h3]
  ring

/-- Each row of the piecewise spec kernel sums to one. -/
lemma kernelSpec_row_sum (cfg : Config) (hn : 2 ≤ cfg.n_states) (s a : ℕ)
    (hs : s < cfg.n_states) (ha : a < 2) :
    cumsum (fun t => kernelSpec cfg s a t) cfg.n_states = 1 := by
  have ha01 : a = 0 ∨ a = 1 := by omega
  unfold cumsum
  rcases ha01 with rfl | rfl
  · by_cases hpos : 0 < s
    · have hrow : ∀ t, kernelSpec cfg s 0 t = (if t = s - 1 then (1 : ℚ) else 0) := by
        intro t; simp [kernelSpec, hpos]
      rw [Finset.sum_congr rfl (fun t _ => hrow t), sum_ite_single _ _ _ (by omega)]
    · have hs0 : s = 0 := by omega
      have hrow : ∀ t, kernelSpec cfg s 0 t = (if t = 0 then (1 : ℚ) else 0) := by
        intro t; simp [kernelSpec, hpos]
      rw [Finset.sum_congr rfl (fun t _ => hrow t), sum_ite_single _ _ _ (by omega)]
  · by_cases hs0 : s = 0
    · have hrow : ∀ t, kernelSpec cfg s 1 t
          = (if t = 0 then cfg.p_stay + cfg.p_left else if t = 1 then cfg.p_right
             else 0) := by
        intro t; simp [kernelSpec, hs0]
      rw [Finset.sum_congr rfl (fun t _ => hrow t),
        sum_ite_double _ _ _ _ _ (by omega) (by omega) (by omega), Config.p_stay]
      ring
    · by_cases hsl : s = cfg.n_states - 1
      · have hrow : ∀ t, kernelSpec cfg s 1 t
            = (if t = s then cfg.p_right else if t = s - 1 then 1 - cfg.p_right
               else 0) := by
          intro t
          simp only [kernelSpec, Nat.one_ne_zero, if_false, ite_false,
            eq_self_iff_true, if_true, ite_true]
          rw [if_neg hs0, if_pos hsl]
        rw [Finset.sum_congr rfl (fun t _ => hrow t),
          sum_ite_double _ _ _ _ _ (by omega) (by omega) (by omega)]
        ring
      · have hrow : ∀ t, kernelSpec cfg s 1 t
            = (if t = s - 1 then cfg.p_left else if t = s then cfg.p_stay
               else if t = s + 1 then cfg.p_right else 0) := by
          intro t
          simp only [kernelSpec, Nat.one_ne_zero, if_false, ite_false,
            eq_self_iff_true, if_true, ite_true]
          rw [if_neg hs0, if_neg hsl]
        rw [Finset.sum_congr rfl (fun t _ => hrow t),
          sum_ite_triple _ _ _ _ _ _ _ (by omega) (by omega) (by omega) (by omega)
            (by omega) (by omega), Config.p_stay]
        ring

/-- Each row of the built kernel sums to one. -/
lemma get_transition_row_sum (cfg : Config) (hn : 2 ≤ cfg.n_states) (s a : ℕ)
    (hs : s < cfg.n_states) (ha : a < 2) :
    cumsum (fun t => _get_transition cfg s a t) cfg.n_states = 1 := by
  unfold cumsum
  rw [Finset.sum_congr rfl
    (fun t _ => get_transition_eq_kernelSpec cfg hn s a t hs ha)]
  exact kernelSpec_row_sum cfg hn s a hs ha

/-- Nonzero entries of a kernel row lie in the table and within one
step of the row state. -/
lemma kernelSpec_support (cfg : Config) (hn : 2 ≤ cfg.n_states) (s a t : ℕ)
    (hs : s < cfg.n_states) (ha : a < 2) (hne : kernelSpec cfg s a t ≠ 0) :
    t < cfg.n_states ∧ ((t : ℤ) - (s : ℤ)).natAbs ≤ 1 := by
  have ha01 : a = 0 ∨ a = 1 := by omega
  revert hne
  rcases ha01 with rfl | rfl <;>
    (simp only [kernelSpec, eq_self_iff_true, if_true, Nat.one_ne_zero,
       Nat.zero_ne_one, if_false, ite_true, ite_false]
     split_ifs <;> intro hne <;> first | omega | exact absurd rfl hne)

/-- The scan never moves below its start index. -/
lemma searchsorted_ge (p : ℕ → ℚ) (u : ℚ) :
    ∀ fuel k, k ≤ searchsorted p u fuel k := by
  intro fuel
  induction fuel with
  | zero => intro k; simp [searchsorted]
  | succ m ih =>
    intro k
    unfold searchsorted
    split
    · omega
    · have := ih (k + 1); omega

/-- The scan never moves past its fuel allowance. -/
lemma searchsorted_le (p : ℕ → ℚ) (u : ℚ) :
    ∀ fuel k, searchsorted p u fuel k ≤ k + fuel := by
  intro fuel
  induction fuel with
  | zero => intro k; simp [searchsorted]
  | succ m ih =>
    intro k
    unfold searchsorted
    split
    · omega
    · have := ih (k + 1); omega

/-- When the scan stops before exhausting its fuel, the cumulative
probability at the returned index exceeds the draw. -/
lemma searchsorted_found (p : ℕ → ℚ) (u : ℚ) :
    ∀ fuel k, searchsorted p u fuel k < k + fuel →
      u < cumsum p (searchsorted p u fuel k + 1) := by
  intro fuel
  induction fuel with
  | zero =>
    intro k h
    have hz : searchsorted p u 0 k = k := rfl
    omega
  | succ m ih =>
    intro k h
    unfold searchsorted at h ⊢
    by_cases hc : u < cumsum p (k + 1)
    · simp only [hc, if_true, ite_true]
    · simp only [hc, if_false, ite_false] at h ⊢
      exact ih (k + 1) (by omega)

/-- Every index passed over by the scan has cumulative probability at
most the draw. -/
lemma searchsorted_before (p : ℕ → ℚ) (u : ℚ) :
    ∀ fuel k j, k ≤ j → j < searchsorted p u fuel k → cumsum p (j + 1) ≤ u := by
  intro fuel
  induction fuel with
  | zero => intro k j h1 h2; simp [searchsorted] at h2; omega
  | succ m ih =>
    intro k j h1 h2
    unfold searchsorted at h2
    by_cases hc : u < cumsum p (k + 1)
    · simp only [hc, if_true, ite_true] at h2; omega
    · simp only [hc, if_false, ite_false] at h2
      rcases Nat.eq_or_lt_of_le h1 with rfl | hlt
      · exact le_of_not_lt hc
      · exact ih (k + 1) j hlt h2

/-- The sampled index stays inside the table. -/
lemma choice_lt (n : ℕ) (p : ℕ → ℚ) (u : ℚ) (hn : 0 < n) : choice n p u < n := by
  have := searchsorted_le p u (n - 1) 0
  unfold choice
  omega

/-- For a draw inside [0, total mass), the sampled index carries a
strictly positive probability. -/
lemma choice_pos (n : ℕ) (p : ℕ → ℚ) (u : ℚ) (hn : 0 < n) (h0 : 0 ≤ u)
    (h1 : u < cumsum p n) : 0 < p (choice n p u) := by
  have hrdef : choice n p u = searchsorted p u (n - 1) 0 := rfl
  set r := searchsorted p u (n - 1) 0 with hr
  have hle : r ≤ n - 1 := by have := searchsorted_le p u (n - 1) 0; omega
  have hub : u < cumsum p (r + 1) := by
    by_cases hc : r < n - 1
    · exact searchsorted_found p u (n - 1) 0 (by omega)
    · have heq : r + 1 = n := by omega
      rw [heq]; exact h1
  have hlb : cumsum p r ≤ u := by
    rcases Nat.eq_zero_or_pos r with hz | hpos
    · rw [hz]; simpa [cumsum] using h0
    · have hb := searchsorted_before p u (n - 1) 0 (r - 1) (by omega) (by omega)
      rwa [Nat.sub_add_cancel hpos] at hb
  have hsucc : cumsum p (r + 1) = cumsum p r + p r := Finset.sum_range_succ p r
  rw [hrdef]
  linarith

/-- Evaluation of step on a valid action. -/
lemma step_valid (env : RiverSwimEnv) (a : ℤ) (h : a = 0 ∨ a = 1) :
    step env a =
      (Except.ok
        { next_state := choice env.cfg.n_states
            (fun t => env.transition env.current_state a.toNat t) (env.rng env.rng_pos)
        , reward := stepReward env.cfg env.current_state
            (choice env.cfg.n_states
              (fun t => env.transition env.current_state a.toNat t)
              (env.rng env.rng_pos)) a.toNat
        , terminated := false
        , truncated := false
        , info := [] },
       { env with
          current_state := choice env.cfg.n_states
            (fun t => env.transition env.current_state a.toNat t) (env.rng env.rng_pos)
          rng_pos := env.rng_pos + 1 }) := by
  rcases h with rfl | rfl <;> rfl

/-- Evaluation of step on an invalid action. -/
lemma step_invalid (env : RiverSwimEnv) (a : ℤ) (h : ¬ (a = 0 ∨ a = 1)) :
    step env a = (Except.error "Invalid action. Must be 0 or 1.", env) := by
  simp [step, h]

/-- The reward computed by step agrees with the reward rule worded in
the spec. -/
lemma stepReward_eq_claimReward (cfg : Config) (s ns act : ℕ) :
    stepReward cfg s ns act = claimReward cfg s act ns := by
  by_cases h : s = ns
  · subst h
    simp [stepReward, claimReward]
  · have h2 : ns ≠ s := fun hh => h hh.symm
    simp [stepReward, claimReward, h, h2]

/-- With the default parameters, a reward of 5 at next state 0 pins
down the previous state and the action. -/
lemma stepReward_five (cfg : Config) (hcfg : cfg = defaultConfig) (s ns act : ℕ)
    (hns : ns = 0) (h5 : stepReward cfg s ns act = 5) : s = 0 ∧ act = 0 := by
  subst hcfg
  subst hns
  unfold stepReward at h5
  simp only [show defaultConfig.intermediate_reward = 5 from rfl,
    show defaultConfig.max_reward = 10000 from rfl,
    show defaultConfig.commom_reward = 0 from rfl,
    show defaultConfig.n_states = 6 from rfl] at h5
  split_ifs at h5 <;> first | omega | exact absurd h5 (by decide)

/-- With the default parameters, a reward of 10000 at the last state
pins down the previous state and the action. -/
lemma stepReward_max (cfg : Config) (hcfg : cfg = defaultConfig) (s ns act : ℕ)
    (hns : ns = cfg.n_states - 1) (hmax : stepReward cfg s ns act = 10000) :
    s = cfg.n_states - 1 ∧ act = 1 := by
  subst hcfg
  subst hns
  unfold stepReward at hmax
  simp only [show defaultConfig.intermediate_reward = 5 from rfl,
    show defaultConfig.max_reward = 10000 from rfl,
    show defaultConfig.commom_reward = 0 from rfl,
    show defaultConfig.n_states = 6 from rfl] at hmax ⊢
  split_ifs at hmax <;> first | omega | exact absurd hmax (by decide)

/-- With the default configuration and the current state 0, one call
of step with action 0 deterministically stays at 0 with reward 5. -/
lemma default_zero_step (env : RiverSwimEnv)
    (hcfg : env.cfg = defaultConfig)
    (htr : env.transition = _get_transition defaultConfig)
    (hst : env.current_state = 0)
    (hu0 : 0 ≤ env.rng env.rng_pos) (hu1 : env.rng env.rng_pos < 1) :
    step env 0 = (Except.ok ⟨0, 5, false, false, []⟩,
      { env with current_state := 0, rng_pos := env.rng_pos + 1 }) := by
  rw [step_valid env 0 (Or.inl rfl)]
  have hrow : ∀ t, env.transition env.current_state ((0 : ℤ).toNat) t
      = (if t = 0 then (1 : ℚ) else 0) := by
    intro t
    rw [htr, hst]
    show _get_transition defaultConfig 0 0 t = _
    rw [get_transition_eq_kernelSpec defaultConfig (by decide) 0 0 t (by decide)
      (by decide)]
    simp [kernelSpec]
  have hcum : cumsum (fun t => env.transition env.current_state ((0 : ℤ).toNat) t)
      env.cfg.n_states = 1 := by
    unfold cumsum
    rw [Finset.sum_congr rfl (fun t _ => hrow t)]
    exact sum_ite_single _ _ _ (by rw [hcfg]; decide)
  have hpos := choice_pos env.cfg.n_states
    (fun t => env.transition env.current_state ((0 : ℤ).toNat) t)
    (env.rng env.rng_pos) (by rw [hcfg]; decide) hu0 (by rw [hcum]; exact hu1)
  have hchoice : choice env.cfg.n_states
      (fun t => env.transition env.current_state ((0 : ℤ).toNat) t)
      (env.rng env.rng_pos) = 0 := by
    by_contra hne
    rw [show (fun t => env.transition env.current_state ((0 : ℤ).toNat) t)
        (choice env.cfg.n_states
          (fun t => env.transition env.current_state ((0 : ℤ).toNat) t)
          (env.rng env.rng_pos))
      = env.transition env.current_state ((0 : ℤ).toNat)
          (choice env.cfg.n_states
            (fun t => env.transition env.current_state ((0 : ℤ).toNat) t)
            (env.rng env.rng_pos)) from rfl, hrow, if_neg hne] at hpos
    exact absurd hpos (by decide)
  rw [hchoice, hst, hcfg]
  rfl

/-- Running any number of action-0 steps from the default
configuration at state 0 yields output (0, 5, false, false, empty)
every time. -/
lemma run_zero_replicate (G : ℕ → ℕ → ℚ) (hbound : ∀ i, 0 ≤ G 0 i ∧ G 0 i < 1) :
    ∀ (k : ℕ) (env : RiverSwimEnv),
      env.cfg = defaultConfig → env.transition = _get_transition defaultConfig →
      env.current_state = 0 → env.rng = G 0 →
      (runSteps env (List.replicate k 0)).1
        = List.replicate k (Except.ok ⟨0, 5, false, false, []⟩) := by
  intro k
  induction k with
  | zero => intro env _ _ _ _; simp [runSteps]
  | succ m ih =>
    intro env hcfg htr hst hrng
    have hstep := default_zero_step env hcfg htr hst
      (by rw [hrng]; exact (hbound _).1) (by rw [hrng]; exact (hbound _).2)
    rw [List.replicate_succ, List.replicate_succ]
    simp only [runSteps]
    rw [hstep]
    simp only [List.cons.injEq]
    exact ⟨trivial, ih _ hcfg htr rfl hrng⟩

/-- The default configuration satisfies the validity precondition. -/
lemma defaultConfig_valid :
    2 ≤ defaultConfig.n_states ∧ 0 ≤ defaultConfig.p_left ∧
    0 ≤ defaultConfig.p_right ∧
    defaultConfig.p_left + defaultConfig.p_right ≤ 1 := by
  refine ⟨by decide, ?_, ?_, ?_⟩ <;> norm_num [defaultConfig]

/-- C1: for every configuration with n_states at least 2, nonnegative
p_left and p_right and p_left + p_right at most 1, every entry of the
constructed transition kernel equals the piecewise definition of spec
section 4.1 (action 0 moves left deterministically, action 1 splits
mass over left, stay and right with the stated boundary folds, the
last-state branch overwriting the interior assignments, and every
other entry zero). -/
theorem kernel_matches_spec (cfg : Config) (hn : 2 ≤ cfg.n_states)
    (hl : 0 ≤ cfg.p_left) (hr : 0 ≤ cfg.p_right)
    (hlr : cfg.p_left + cfg.p_right ≤ 1)
    (s a t : ℕ) (hs : s < cfg.n_states) (ha : a < 2) (ht : t < cfg.n_states) :
    _get_transition cfg s a t = kernelSpec cfg s a t :=
  get_transition_eq_kernelSpec cfg hn s a t hs ha

/-- Witness for C1 at the default configuration, last state, action 1. -/
theorem kernel_matches_spec_witness :
    (2 ≤ defaultConfig.n_states ∧ 0 ≤ defaultConfig.p_left ∧
      0 ≤ defaultConfig.p_right ∧
      defaultConfig.p_left + defaultConfig.p_right ≤ 1) ∧
    _get_transition defaultConfig 5 1 5 = kernelSpec defaultConfig 5 1 5 :=
  ⟨defaultConfig_valid,
   kernel_matches_spec defaultConfig defaultConfig_valid.1 defaultConfig_valid.2.1
     defaultConfig_valid.2.2.1 defaultConfig_valid.2.2.2
     5 1 5 (by decide) (by decide) (by decide)⟩

/-- C2: for every configuration with n_states at least 2, nonnegative
p_left and p_right and p_left + p_right at most 1, every row of the
constructed kernel sums to 1 over next states, so the row-sum
assertions executed at construction succeed. -/
theorem rows_are_distributions (cfg : Config) (hn : 2 ≤ cfg.n_states)
    (hl : 0 ≤ cfg.p_left) (hr : 0 ≤ cfg.p_right)
    (hlr : cfg.p_left + cfg.p_right ≤ 1) :
    (∀ s a, s < cfg.n_states → a < 2 →
        cumsum (fun t => _get_transition cfg s a t) cfg.n_states = 1) ∧
    rowSumsOk cfg := by
  refine ⟨fun s a hs ha => get_transition_row_sum cfg hn s a hs ha, fun s hs => ?_⟩
  exact ⟨get_transition_row_sum cfg hn s 0 hs (by omega),
    get_transition_row_sum cfg hn s 1 hs (by omega)⟩

/-- Witness for C2 at the default configuration, state 0, action 1. -/
theorem rows_are_distributions_witness :
    (2 ≤ defaultConfig.n_states ∧ 0 ≤ defaultConfig.p_left ∧
      0 ≤ defaultConfig.p_right ∧
      defaultConfig.p_left + defaultConfig.p_right ≤ 1) ∧
    cumsum (fun t => _get_transition defaultConfig 0 1 t) defaultConfig.n_states
      = 1 :=
  ⟨defaultConfig_valid,
   (rows_are_distributions defaultConfig defaultConfig_valid.1
      defaultConfig_valid.2.1 defaultConfig_valid.2.2.1
      defaultConfig_valid.2.2.2).1 0 1 (by decide) (by decide)⟩

/-- C3: for every valid action and every current state, the reward
returned by step follows the spec rule (common reward on any move,
intermediate reward only for staying at 0 under action 0, max reward
only for staying at the last state under action 1); with the default
parameters, reward 5 at next state 0 forces previous state 0 and
action 0, and reward 10000 at the last state forces previous state
n_states - 1 and action 1. -/
theorem step_reward_rule (env : RiverSwimEnv) (a : ℤ) (ha : a = 0 ∨ a = 1) :
    ∃ out env1, step env a = (Except.ok out, env1) ∧
      out.reward = claimReward env.cfg env.current_state a.toNat out.next_state ∧
      (env.cfg = defaultConfig → out.next_state = 0 → out.reward = 5 →
        env.current_state = 0 ∧ a = 0) ∧
      (env.cfg = defaultConfig → out.next_state = env.cfg.n_states - 1 →
        out.reward = 10000 → env.current_state = env.cfg.n_states - 1 ∧ a = 1) := by
  refine ⟨_, _, step_valid env a ha, ?_, ?_, ?_⟩
  · exact stepReward_eq_claimReward env.cfg env.current_state _ a.toNat
  · intro hcfg hns h5
    replace hns : choice env.cfg.n_states
        (fun t => env.transition env.current_state a.toNat t)
        (env.rng env.rng_pos) = 0 := hns
    replace h5 : stepReward env.cfg env.current_state
        (choice env.cfg.n_states
          (fun t => env.transition env.current_state a.toNat t)
          (env.rng env.rng_pos)) a.toNat = 5 := h5
    have hsa := stepReward_five env.cfg hcfg _ _ _ hns h5
    refine ⟨hsa.1, ?_⟩
    rcases ha with rfl | rfl
    · rfl
    · exact absurd hsa.2 (by decide)
  · intro hcfg hns hmax
    replace hns : choice env.cfg.n_states
        (fun t => env.transition env.current_state a.toNat t)
        (env.rng env.rng_pos) = env.cfg.n_states - 1 := hns
    replace hmax : stepReward env.cfg env.current_state
        (choice env.cfg.n_states
          (fun t => env.transition env.current_state a.toNat t)
          (env.rng env.rng_pos)) a.toNat = 10000 := hmax
    have hsa := stepReward_max env.cfg hcfg _ _ _ hns hmax
    refine ⟨hsa.1, ?_⟩
    rcases ha with rfl | rfl
    · exact absurd hsa.2 (by decide)
    · rfl

/-- Witness for C3 at a concrete environment and action 0. -/
theorem step_reward_rule_witness :
    ((0 : ℤ) = 0 ∨ (0 : ℤ) = 1) ∧
    ∃ out env1, step env₀ 0 = (Except.ok out, env1) ∧
      out.reward = claimReward env₀.cfg env₀.current_state ((0 : ℤ)).toNat
        out.next_state ∧
      (env₀.cfg = defaultConfig → out.next_state = 0 → out.reward = 5 →
        env₀.current_state = 0 ∧ (0 : ℤ) = 0) ∧
      (env₀.cfg = defaultConfig → out.next_state = env₀.cfg.n_states - 1 →
        out.reward = 10000 →
        env₀.current_state = env₀.cfg.n_states - 1 ∧ (0 : ℤ) = 1) :=
  ⟨Or.inl rfl, step_reward_rule env₀ 0 (Or.inl rfl)⟩

/-- C4: step raises the invalid-action error on every integer action
outside 0 and 1 and returns the environment unchanged (so the current
state is not mutated), while actions 0 and 1 never take the error
path. -/
theorem step_rejects_invalid_actions (env : RiverSwimEnv) (a : ℤ) :
    (¬ (a = 0 ∨ a = 1) →
      step env a = (Except.error "Invalid action. Must be 0 or 1.", env)) ∧
    ((a = 0 ∨ a = 1) → ∃ out env1, step env a = (Except.ok out, env1)) :=
  ⟨fun h => step_invalid env a h, fun h => ⟨_, _, step_valid env a h⟩⟩

/-- Witness for C4 at actions 2, -1 and 0. -/
theorem step_rejects_invalid_actions_witness :
    step env₀ 2 = (Except.error "Invalid action. Must be 0 or 1.", env₀) ∧
    step env₀ (-1) = (Except.error "Invalid action. Must be 0 or 1.", env₀) ∧
    ∃ out env1, step env₀ 0 = (Except.ok out, env1) :=
  ⟨(step_rejects_invalid_actions env₀ 2).1 (by decide),
   (step_rejects_invalid_actions env₀ (-1)).1 (by decide),
   (step_rejects_invalid_actions env₀ 0).2 (Or.inl rfl)⟩

/-- C5: for every prior environment and every seed argument, present
or omitted, reset returns the pair of state 0 and an empty info
mapping and leaves the current state equal to 0. -/
theorem reset_returns_zero (G : ℕ → ℕ → ℚ) (fresh : ℕ → ℚ) (env : RiverSwimEnv)
    (seed : Option ℕ) :
    (reset G fresh env seed).1 = (0, []) ∧
    (reset G fresh env seed).2.current_state = 0 :=
  ⟨rfl, rfl⟩

/-- C6 counterexample: calling reset with the seed omitted does NOT
keep the prior random source; at a concrete environment whose stream
is constantly one half and a fresh entropy stream that is constantly
zero, the stream after reset differs from the prior stream. -/
theorem reset_none_keeps_rng_counterexample :
    (reset (fun _ _ => 0) (fun _ => 1) env₀ none).2.rng 0 ≠ env₀.rng 0 := by
  decide

/-- C6 amended: reset unconditionally installs a new random source and
restarts its position: the stream produced by the seeding function for
the given integer seed when one is supplied, and a freshly drawn
entropy stream when the seed is omitted; the prior stream is discarded
in both cases. -/
theorem reset_always_replaces_rng (G : ℕ → ℕ → ℚ) (fresh : ℕ → ℚ)
    (env : RiverSwimEnv) :
    (reset G fresh env none).2.rng = fresh ∧
    (reset G fresh env none).2.rng_pos = 0 ∧
    (∀ s, (reset G fresh env (some s)).2.rng = G s ∧
      (reset G fresh env (some s)).2.rng_pos = 0) :=
  ⟨rfl, rfl, fun _ => ⟨rfl, rfl⟩⟩

/-- C7: along any finite sequence of valid actions, from any
environment, every step output has terminated and truncated false and
an empty info mapping: the episode never self-terminates. -/
theorem episode_never_terminates (env : RiverSwimEnv) (actions : List ℤ)
    (hval : ∀ a ∈ actions, a = 0 ∨ a = 1) :
    ∀ r ∈ (runSteps env actions).1, ∃ out, r = Except.ok out ∧
      out.terminated = false ∧ out.truncated = false ∧ out.info = [] := by
  induction actions generalizing env with
  | nil => intro r hr; simp [runSteps] at hr
  | cons a rest ih =>
    intro r hr
    have ha : a = 0 ∨ a = 1 := hval a (List.mem_cons_self a rest)
    simp only [runSteps, List.mem_cons] at hr
    rcases hr with rfl | hr1
    · rw [step_valid env a ha]
      exact ⟨_, rfl, rfl, rfl, rfl⟩
    · exact ih _ (fun x hx => hval x (List.mem_cons_of_mem a hx)) r hr1

/-- Witness for C7 on a concrete three-action run. -/
theorem episode_never_terminates_witness :
    (∀ a ∈ ([0, 1, 0] : List ℤ), a = 0 ∨ a = 1) ∧
    ∀ r ∈ (runSteps env₀ [0, 1, 0]).1, ∃ out, r = Except.ok out ∧
      out.terminated = false ∧ out.truncated = false ∧ out.info = [] :=
  ⟨by decide, episode_never_terminates env₀ [0, 1, 0] (by decide)⟩

/-- C8: with the default configuration, after a seeded reset the state
is 0 and every subsequent step with action 0 returns next state 0 with
reward 5, for any number of repetitions, for any random stream with
draws in the unit interval (since the kernel row at state 0 under
action 0 is a point mass at 0). -/
theorem default_reset_step_zero_forever (G : ℕ → ℕ → ℚ) (fresh rng0 : ℕ → ℚ)
    (k : ℕ) (hbound : ∀ i, 0 ≤ G 0 i ∧ G 0 i < 1) :
    (reset G fresh (RiverSwimEnv.init defaultConfig rng0) (some 0)).1 = (0, []) ∧
    (runSteps (reset G fresh (RiverSwimEnv.init defaultConfig rng0) (some 0)).2
        (List.replicate k 0)).1
      = List.replicate k (Except.ok ⟨0, 5, false, false, []⟩) := by
  refine ⟨rfl, ?_⟩
  exact run_zero_replicate G hbound k _ rfl rfl rfl rfl

/-- Witness for C8 on a constant zero stream and three steps. -/
theorem default_reset_step_zero_forever_witness :
    (∀ i : ℕ, 0 ≤ (fun _ _ : ℕ => (0 : ℚ)) 0 i ∧ (fun _ _ : ℕ => (0 : ℚ)) 0 i < 1) ∧
    ((reset (fun _ _ : ℕ => (0 : ℚ)) (fun _ => 0)
        (RiverSwimEnv.init defaultConfig (fun _ => 0)) (some 0)).1 = (0, []) ∧
      (runSteps (reset (fun _ _ : ℕ => (0 : ℚ)) (fun _ => 0)
          (RiverSwimEnv.init defaultConfig (fun _ => 0)) (some 0)).2
          (List.replicate 3 0)).1
        = List.replicate 3 (Except.ok ⟨0, 5, false, false, []⟩)) :=
  ⟨fun _ => ⟨(by decide : (0 : ℚ) ≤ 0), (by decide : (0 : ℚ) < 1)⟩,
   default_reset_step_zero_forever (fun _ _ : ℕ => (0 : ℚ)) (fun _ => 0)
     (fun _ => 0) 3
     (fun _ => ⟨(by decide : (0 : ℚ) ≤ 0), (by decide : (0 : ℚ) < 1)⟩)⟩

/-- C9: on a well-formed environment (cached kernel, valid
configuration, in-range current state) with a unit-interval draw,
every valid step samples a next state inside the state range that
differs from the current state by at most one, and the stored current
state keeps these bounds. -/
theorem step_locality (env : RiverSwimEnv) (a : ℤ)
    (htr : env.transition = _get_transition env.cfg)
    (hn : 2 ≤ env.cfg.n_states)
    (hl : 0 ≤ env.cfg.p_left) (hr : 0 ≤ env.cfg.p_right)
    (hlr : env.cfg.p_left + env.cfg.p_right ≤ 1)
    (hs : env.current_state < env.cfg.n_states)
    (ha : a = 0 ∨ a = 1)
    (hu0 : 0 ≤ env.rng env.rng_pos) (hu1 : env.rng env.rng_pos < 1) :
    ∃ out env1, step env a = (Except.ok out, env1) ∧
      out.next_state < env.cfg.n_states ∧
      ((out.next_state : ℤ) - (env.current_state : ℤ)).natAbs ≤ 1 ∧
      env1.current_state = out.next_state ∧
      env1.current_state < env.cfg.n_states := by
  refine ⟨_, _, step_valid env a ha, ?_⟩
  have hant : a.toNat < 2 := by rcases ha with rfl | rfl <;> decide
  have hsum : cumsum (fun t => env.transition env.current_state a.toNat t)
      env.cfg.n_states = 1 := by
    unfold cumsum
    rw [Finset.sum_congr rfl (fun t _ => by rw [htr])]
    exact get_transition_row_sum env.cfg hn _ _ hs hant
  have hclt := choice_lt env.cfg.n_states
    (fun t => env.transition env.current_state a.toNat t)
    (env.rng env.rng_pos) (by omega)
  have hpos := choice_pos env.cfg.n_states
    (fun t => env.transition env.current_state a.toNat t)
    (env.rng env.rng_pos) (by omega) hu0 (by rw [hsum]; exact hu1)
  have hval : env.transition env.current_state a.toNat
      (choice env.cfg.n_states
        (fun t => env.transition env.current_state a.toNat t)
        (env.rng env.rng_pos))
      = kernelSpec env.cfg env.current_state a.toNat
          (choice env.cfg.n_states
            (fun t => env.transition env.current_state a.toNat t)
            (env.rng env.rng_pos)) := by
    rw [htr]
    exact get_transition_eq_kernelSpec env.cfg hn _ _ _ hs hant
  have hks : kernelSpec env.cfg env.current_state a.toNat
      (choice env.cfg.n_states
        (fun t => env.transition env.current_state a.toNat t)
        (env.rng env.rng_pos)) ≠ 0 := by
    intro hzero
    have hpos2 : 0 < env.transition env.current_state a.toNat
        (choice env.cfg.n_states
          (fun t => env.transition env.current_state a.toNat t)
          (env.rng env.rng_pos)) := hpos
    rw [hval, hzero] at hpos2
    exact absurd hpos2 (by decide)
  obtain ⟨h1, h2⟩ := kernelSpec_support env.cfg hn _ _ _ hs hant hks
  exact ⟨h1, h2, rfl, h1⟩

/-- Witness for C9 at a concrete environment and action 1. -/
theorem step_locality_witness :
    (env₀.transition = _get_transition env₀.cfg ∧ 2 ≤ env₀.cfg.n_states ∧
      0 ≤ env₀.cfg.p_left ∧ 0 ≤ env₀.cfg.p_right ∧
      env₀.cfg.p_left + env₀.cfg.p_right ≤ 1 ∧
      env₀.current_state < env₀.cfg.n_states ∧
      0 ≤ env₀.rng env₀.rng_pos ∧ env₀.rng env₀.rng_pos < 1) ∧
    ∃ out env1, step env₀ 1 = (Except.ok out, env1) ∧
      out.next_state < env₀.cfg.n_states ∧
      ((out.next_state : ℤ) - (env₀.current_state : ℤ)).natAbs ≤ 1 ∧
      env1.current_state = out.next_state ∧
      env1.current_state < env₀.cfg.n_states :=
  ⟨⟨rfl, defaultConfig_valid.1, defaultConfig_valid.2.1, defaultConfig_valid.2.2.1,
     defaultConfig_valid.2.2.2, by decide, by decide, by decide⟩,
   step_locality env₀ 1 rfl defaultConfig_valid.1 defaultConfig_valid.2.1
     defaultConfig_valid.2.2.1 defaultConfig_valid.2.2.2
     (by decide) (Or.inr rfl) (by decide) (by decide)⟩

/-- C10: two model instances with the same configuration, reset with
the same integer seed and fed the same action sequence, produce
identical output sequences: every sample is drawn from the
instance-owned stream that the seeded reset freshly installs. -/
theorem seeded_runs_reproducible (G : ℕ → ℕ → ℚ) (fresh1 fresh2 : ℕ → ℚ)
    (cfg : Config) (rng1 rng2 : ℕ → ℚ) (seed : ℕ) (actions : List ℤ) :
    (runSteps (reset G fresh1 (RiverSwimEnv.init cfg rng1) (some seed)).2
        actions).1
      = (runSteps (reset G fresh2 (RiverSwimEnv.init cfg rng2) (some seed)).2
          actions).1 :=
  rfl

end RiverSwim
